import Mathlib

/-!
A shallow embedding of the task-manager server (`src/server.py`) and proofs of
the specification's claims about it.

The Python module keeps two pieces of process-wide state: a dict `tasks`
mapping task ids to task records (Python dicts preserve insertion order, so the
mapping is modelled as an association list in insertion order) and a counter
`task_counter`.  Timestamps (`datetime.now().isoformat()`) are modelled by
passing the current instant as an explicit string argument `now` to the
operations that read the clock.  Python's f-string `f"task_{task_counter}"`
renders the counter in decimal; decimal rendering is defined here explicitly
(`natToDecimal`) so that its injectivity can be proved.
-/

namespace TaskManager

/-- A task record, mirroring the dict built in `create_task`
(`src/server.py` lines 20–28). `completed_at` is `Option` because Python
initialises it to `None`. -/
structure Task where
  id : String
  title : String
  description : String
  priority : String
  status : String
  created_at : String
  completed_at : Option String
deriving DecidableEq

/-- The process-wide state: the `tasks` dict (insertion-ordered association
list) and the `task_counter` (`src/server.py` lines 10–11). -/
structure Store where
  tasks : List (String × Task)
  task_counter : Nat
deriving DecidableEq

/-- The initial state: empty dict, counter 0. -/
def initStore : Store := { tasks := [], task_counter := 0 }

/-- Dict lookup on an insertion-ordered association list (Python `tasks[k]` /
`k in tasks`). -/
def lookupKey {α : Type} : List (String × α) → String → Option α
  | [], _ => none
  | p :: rest, k => if p.1 = k then some p.2 else lookupKey rest k

/-- Dict assignment `m[k] = v`: overwrite in place when the key exists,
otherwise append at the end (Python dicts keep insertion order). -/
def dictInsert {α : Type} (m : List (String × α)) (k : String) (v : α) : List (String × α) :=
  if (lookupKey m k).isSome then m.map (fun p => if p.1 = k then (k, v) else p)
  else m ++ [(k, v)]

/-- Dict removal `m.pop(k)`'s effect on the mapping: drop the (first) entry
with key `k`. -/
def removeKey {α : Type} : List (String × α) → String → List (String × α)
  | [], _ => []
  | p :: rest, k => if p.1 = k then rest else p :: removeKey rest k

/-- In-place mutation of the record stored at key `k`
(Python `tasks[k]["field"] = ...`). -/
def storeUpdate (m : List (String × Task)) (k : String) (f : Task → Task) :
    List (String × Task) :=
  m.map (fun p => if p.1 = k then (p.1, f p.2) else p)

/-! ### Decimal rendering of the counter -/

/-- Little-endian decimal digits, structurally recursive on a fuel bound so
that concrete values reduce definitionally. -/
def natDigitsLEAux : Nat → Nat → List Nat
  | _, 0 => []
  | 0, _ + 1 => []
  | fuel + 1, n + 1 => ((n + 1) % 10) :: natDigitsLEAux fuel ((n + 1) / 10)

/-- Little-endian decimal digits of `n` (empty for 0). -/
def natDigitsLE (n : Nat) : List Nat := natDigitsLEAux n n

/-- Value of a little-endian digit list. -/
def ofDigitsLE : List Nat → Nat
  | [] => 0
  | d :: ds => d + 10 * ofDigitsLE ds

/-- The character for one decimal digit. -/
def digitChar (d : Nat) : Char :=
  match d with
  | 0 => '0' | 1 => '1' | 2 => '2' | 3 => '3' | 4 => '4'
  | 5 => '5' | 6 => '6' | 7 => '7' | 8 => '8' | _ => '9'

/-- Decimal rendering of a natural number, as Python's `str`/f-string does. -/
def natToDecimal (n : Nat) : String :=
  if n = 0 then "0" else String.mk (((natDigitsLE n).map digitChar).reverse)

/-- The id synthesised for the `n`-th created task: `f"task_{n}"`. -/
def mkTaskId (n : Nat) : String := "task_" ++ natToDecimal n

/-! ### The five tool operations, the resource views and the prompt -/

/-- Result dict of `create_task` (keys `success`, `message`, `task`). -/
structure CreateResult where
  success : Bool
  message : String
  task : Task
deriving DecidableEq

/-- `create_task` (`src/server.py` lines 13–35): increments the counter,
builds the record, inserts it, returns it wrapped with a success flag. -/
def create_task (s : Store) (title description priority now : String) :
    CreateResult × Store :=
  let c := s.task_counter + 1
  let task_id := mkTaskId c
  let task : Task :=
    { id := task_id, title := title, description := description,
      priority := priority, status := "pending", created_at := now,
      completed_at := none }
  ({ success := true, message := "Task created successfully", task := task },
   { tasks := dictInsert s.tasks task_id task, task_counter := c })

/-- Result dict of `list_tasks` (keys `total`, `tasks`, `filters`). -/
structure ListResult where
  total : Nat
  tasks : List Task
  filters_status : String
  filters_priority : String
deriving DecidableEq

/-- The loop body of `list_tasks`: a task is kept unless one of the two
`continue` branches fires. -/
def keepTask (status priority : String) (t : Task) : Bool :=
  if status ≠ "all" ∧ t.status ≠ status then false
  else if priority ≠ "all" ∧ t.priority ≠ priority then false
  else true

/-- `list_tasks` (`src/server.py` lines 37–56): linear scan keeping the tasks
that pass both filters, in insertion order. -/
def list_tasks (s : Store) (status priority : String) : ListResult :=
  let filtered := (s.tasks.map Prod.snd).filter (keepTask status priority)
  { total := filtered.length, tasks := filtered,
    filters_status := status, filters_priority := priority }

/-- Result dict of `update_task_status`: either `success = false` with an
`error` string, or `success = true` with `message` and `task`. -/
structure UpdateResult where
  success : Bool
  error : Option String
  message : Option String
  task : Option Task
deriving DecidableEq

/-- The `valid_statuses` list of `update_task_status`. -/
def valid_statuses : List String := ["pending", "in_progress", "completed"]

/-- `update_task_status` (`src/server.py` lines 58–82): not-found check first,
then status validation, then the two in-place mutations. -/
def update_task_status (s : Store) (task_id status now : String) :
    UpdateResult × Store :=
  match lookupKey s.tasks task_id with
  | none =>
      ({ success := false, error := some ("Task " ++ task_id ++ " not found"),
         message := none, task := none }, s)
  | some _ =>
      if status ∉ valid_statuses then
        ({ success := false,
           error := some "Invalid status. Must be one of: pending, in_progress, completed",
           message := none, task := none }, s)
      else
        let ts1 := storeUpdate s.tasks task_id (fun t => { t with status := status })
        let ts2 :=
          if status = "completed" then
            storeUpdate ts1 task_id (fun t => { t with completed_at := some now })
          else ts1
        ({ success := true, error := none,
           message := some ("Task " ++ task_id ++ " status updated to " ++ status),
           task := lookupKey ts2 task_id },
         { s with tasks := ts2 })

/-- Result dict of `delete_task`: either `success = false` with an `error`
string, or `success = true` with `message` and `deleted_task`. -/
structure DeleteResult where
  success : Bool
  error : Option String
  message : Option String
  deleted_task : Option Task
deriving DecidableEq

/-- `delete_task` (`src/server.py` lines 84–98): not-found check, then
`tasks.pop(task_id)` returning the removed record. -/
def delete_task (s : Store) (task_id : String) : DeleteResult × Store :=
  match lookupKey s.tasks task_id with
  | none =>
      ({ success := false, error := some ("Task " ++ task_id ++ " not found"),
         message := none, deleted_task := none }, s)
  | some t =>
      ({ success := true, error := none,
         message := some ("Task " ++ task_id ++ " deleted successfully"),
         deleted_task := some t },
       { s with tasks := removeKey s.tasks task_id })

/-- Result dict of `get_task_stats`. The two breakdown dicts are
insertion-ordered association lists, like every Python dict. -/
structure Stats where
  total_tasks : Nat
  by_status : List (String × Nat)
  by_priority : List (String × Nat)
deriving DecidableEq

/-- One accumulation step `m[k] = m.get(k, 0) + 1` of `get_task_stats`. -/
def bump (m : List (String × Nat)) (k : String) : List (String × Nat) :=
  dictInsert m k ((lookupKey m k).getD 0 + 1)

/-- `get_task_stats` (`src/server.py` lines 100–115): one scan over the
stored tasks accumulating both breakdown dicts. -/
def get_task_stats (s : Store) : Stats :=
  let init : List (String × Nat) × List (String × Nat) :=
    ([("pending", 0), ("in_progress", 0), ("completed", 0)],
     [("low", 0), ("medium", 0), ("high", 0)])
  let acc := s.tasks.foldl (fun m p => (bump m.1 p.2.status, bump m.2 p.2.priority)) init
  { total_tasks := s.tasks.length, by_status := acc.1, by_priority := acc.2 }

/-- Python's `x or default` for the optional timestamp in the prompt: `None`
and the empty string are both falsy. -/
def orDefaultStr (v : Option String) (d : String) : String :=
  match v with
  | none => d
  | some str => if str = "" then d else str

/-- `task_summary_prompt` (`src/server.py` lines 130–145): a pure formatting
function from the store to text. -/
def task_summary_prompt (s : Store) (task_id : String) : String :=
  match lookupKey s.tasks task_id with
  | none => "Task " ++ task_id ++ " not found"
  | some t =>
      "Task Summary:\nTitle: " ++ t.title ++
      "\nDescription: " ++ t.description ++
      "\nPriority: " ++ t.priority ++
      "\nStatus: " ++ t.status ++
      "\nCreated: " ++ t.created_at ++
      "\nCompleted: " ++ orDefaultStr t.completed_at "Not completed" ++
      "\n\nPlease analyze this task and provide recommendations for completion."

/-! ### Association-list lemmas -/

/-- The key list of an association list. -/
def keysOf {α : Type} (m : List (String × α)) : List String := m.map Prod.fst

@[simp]
theorem lookupKey_nil {α : Type} (k : String) :
    lookupKey ([] : List (String × α)) k = none := rfl

@[simp]
theorem lookupKey_cons {α : Type} (p : String × α) (rest : List (String × α)) (k : String) :
    lookupKey (p :: rest) k = if p.1 = k then some p.2 else lookupKey rest k := rfl

theorem lookupKey_eq_none_iff {α : Type} (m : List (String × α)) (k : String) :
    lookupKey m k = none ↔ k ∉ keysOf m := by
  induction m with
  | nil => simp [keysOf]
  | cons p rest ih =>
    unfold keysOf at *
    simp only [lookupKey_cons, List.map_cons, List.mem_cons]
    by_cases h : p.1 = k
    · simp [h]
    · rw [if_neg h, ih]
      push_neg
      constructor
      · intro hk
        exact ⟨fun hh => h hh.symm, hk⟩
      · intro hk
        exact hk.2

theorem lookupKey_isSome_iff {α : Type} (m : List (String × α)) (k : String) :
    (lookupKey m k).isSome ↔ k ∈ keysOf m := by
  constructor
  · intro hs
    by_contra hk
    rw [← lookupKey_eq_none_iff] at hk
    rw [hk] at hs
    simp at hs
  · intro hk
    cases hl : lookupKey m k with
    | some v => simp
    | none => exact absurd hk ((lookupKey_eq_none_iff m k).1 hl)

theorem lookupKey_append {α : Type} (m m' : List (String × α)) (k : String) :
    lookupKey (m ++ m') k =
      match lookupKey m k with
      | some v => some v
      | none => lookupKey m' k := by
  induction m with
  | nil => simp
  | cons p rest ih => simp only [List.cons_append, lookupKey_cons]; split <;> simp [ih]

theorem lookupKey_overwrite_self {α : Type} (m : List (String × α)) (k : String) (v : α) :
    lookupKey (m.map fun p => if p.1 = k then (k, v) else p) k =
      (lookupKey m k).map (fun _ => v) := by
  induction m with
  | nil => simp
  | cons p rest ih =>
    by_cases h : p.1 = k <;> simp [h, ih]

theorem lookupKey_overwrite_ne {α : Type} (m : List (String × α)) (k k' : String) (v : α)
    (h : k' ≠ k) :
    lookupKey (m.map fun p => if p.1 = k then (k, v) else p) k' = lookupKey m k' := by
  induction m with
  | nil => simp
  | cons p rest ih =>
    by_cases hp : p.1 = k
    · have hk' : ¬ k = k' := fun hh => h hh.symm
      simp [hp, hk', ih]
    · simp [hp, ih]

theorem lookupKey_dictInsert_self {α : Type} (m : List (String × α)) (k : String) (v : α) :
    lookupKey (dictInsert m k v) k = some v := by
  unfold dictInsert
  split
  · rw [lookupKey_overwrite_self]
    cases hl : lookupKey m k with
    | none => simp_all
    | some w => simp
  · rw [lookupKey_append]
    cases hl : lookupKey m k with
    | none => simp
    | some w => simp_all

theorem lookupKey_dictInsert_ne {α : Type} (m : List (String × α)) (k k' : String) (v : α)
    (h : k' ≠ k) : lookupKey (dictInsert m k v) k' = lookupKey m k' := by
  unfold dictInsert
  split
  · exact lookupKey_overwrite_ne m k k' v h
  · rw [lookupKey_append]
    cases hl : lookupKey m k' with
    | none => simp [hl, Ne.symm h]
    | some w => simp [hl]

theorem mem_dictInsert {α : Type} (m : List (String × α)) (k : String) (v : α)
    (p : String × α) (hp : p ∈ dictInsert m k v) :
    p = (k, v) ∨ (p ∈ m ∧ p.1 ≠ k) := by
  unfold dictInsert at hp
  split at hp
  · rcases List.mem_map.1 hp with ⟨q, hq, hfq⟩
    by_cases hqk : q.1 = k
    · left; simp [hqk] at hfq; exact hfq.symm
    · right; simp [hqk] at hfq; exact ⟨hfq ▸ hq, hfq ▸ hqk⟩
  · rcases List.mem_append.1 hp with hm | hnew
    · right
      refine ⟨hm, fun hpk => ?_⟩
      have : k ∈ keysOf m := by
        simpa [keysOf, hpk] using List.mem_map_of_mem Prod.fst hm
      have hnone : lookupKey m k = none := by
        cases hl : lookupKey m k with
        | none => rfl
        | some w => simp_all
      exact (lookupKey_eq_none_iff m k).1 hnone this
    · left; simpa using hnew

theorem keysOf_dictInsert {α : Type} (m : List (String × α)) (k : String) (v : α) :
    keysOf (dictInsert m k v) =
      if k ∈ keysOf m then keysOf m else keysOf m ++ [k] := by
  unfold dictInsert
  by_cases hm : k ∈ keysOf m
  · rw [if_pos ((lookupKey_isSome_iff m k).2 hm), if_pos hm]
    unfold keysOf
    rw [List.map_map]
    refine List.map_congr_left fun p _ => ?_
    by_cases hp : p.1 = k <;> simp [hp]
  · rw [if_neg (by simpa [lookupKey_isSome_iff] using hm), if_neg hm]
    simp [keysOf]

theorem nodup_keysOf_dictInsert {α : Type} (m : List (String × α)) (k : String) (v : α)
    (h : (keysOf m).Nodup) : (keysOf (dictInsert m k v)).Nodup := by
  rw [keysOf_dictInsert]
  split
  · exact h
  · simp only [List.nodup_append, List.nodup_cons, List.nodup_nil]
    exact ⟨h, by simp, by simp_all⟩

/-! storeUpdate lemmas -/

theorem lookupKey_storeUpdate_self (m : List (String × Task)) (k : String) (f : Task → Task) :
    lookupKey (storeUpdate m k f) k = (lookupKey m k).map f := by
  unfold storeUpdate
  induction m with
  | nil => simp
  | cons p rest ih =>
    by_cases h : p.1 = k <;> simp [h, ih]

theorem lookupKey_storeUpdate_ne (m : List (String × Task)) (k k' : String) (f : Task → Task)
    (h : k' ≠ k) : lookupKey (storeUpdate m k f) k' = lookupKey m k' := by
  unfold storeUpdate
  induction m with
  | nil => simp
  | cons p rest ih =>
    by_cases hp : p.1 = k
    · have hkk' : ¬ k = k' := fun hh => h hh.symm
      simp [hp, hkk', ih]
    · simp [hp, ih]

theorem mem_storeUpdate_of_ne (m : List (String × Task)) (k : String) (f : Task → Task)
    (p : String × Task) (hp : p ∈ m) (hne : p.1 ≠ k) : p ∈ storeUpdate m k f := by
  unfold storeUpdate
  have : (if p.1 = k then (p.1, f p.2) else p) = p := if_neg hne
  exact this ▸ List.mem_map_of_mem _ hp

theorem mem_storeUpdate (m : List (String × Task)) (k : String) (f : Task → Task)
    (p : String × Task) (hp : p ∈ storeUpdate m k f) :
    (p ∈ m ∧ p.1 ≠ k) ∨ (∃ q ∈ m, q.1 = k ∧ p = (k, f q.2)) := by
  unfold storeUpdate at hp
  rcases List.mem_map.1 hp with ⟨q, hq, hfq⟩
  by_cases hqk : q.1 = k
  · right
    refine ⟨q, hq, hqk, ?_⟩
    simp only [hqk, if_pos rfl] at hfq
    exact hfq.symm
  · left
    simp only [hqk, if_false] at hfq
    exact ⟨hfq ▸ hq, hfq ▸ hqk⟩

theorem keysOf_storeUpdate (m : List (String × Task)) (k : String) (f : Task → Task) :
    keysOf (storeUpdate m k f) = keysOf m := by
  unfold storeUpdate keysOf
  rw [List.map_map]
  refine List.map_congr_left fun p _ => ?_
  by_cases hp : p.1 = k <;> simp [hp]

/-! removeKey lemmas -/

theorem mem_removeKey {α : Type} (m : List (String × α)) (k : String) (p : String × α)
    (hp : p ∈ removeKey m k) : p ∈ m := by
  induction m with
  | nil => simp [removeKey] at hp
  | cons q rest ih =>
    unfold removeKey at hp
    split at hp
    · exact List.mem_cons_of_mem q hp
    · rcases List.mem_cons.1 hp with h | h
      · exact h ▸ List.mem_cons_self q rest
      · exact List.mem_cons_of_mem q (ih h)

theorem mem_removeKey_of_ne {α : Type} (m : List (String × α)) (k : String) (p : String × α)
    (hp : p ∈ m) (hne : p.1 ≠ k) : p ∈ removeKey m k := by
  induction m with
  | nil => simp at hp
  | cons q rest ih =>
    unfold removeKey
    rcases List.mem_cons.1 hp with h | h
    · subst h
      rw [if_neg hne]
      exact List.mem_cons_self p (removeKey rest k)
    · split
      · exact h
      · exact List.mem_cons_of_mem q (ih h)

theorem length_removeKey {α : Type} (m : List (String × α)) (k : String)
    (h : (lookupKey m k).isSome) : (removeKey m k).length + 1 = m.length := by
  induction m with
  | nil => simp at h
  | cons q rest ih =>
    unfold removeKey
    by_cases hq : q.1 = k
    · simp [hq]
    · simp only [lookupKey_cons, hq, if_false] at h
      simp [hq, ← ih h]

theorem lookupKey_removeKey_self {α : Type} (m : List (String × α)) (k : String)
    (hnd : (keysOf m).Nodup) : lookupKey (removeKey m k) k = none := by
  induction m with
  | nil => simp [removeKey]
  | cons q rest ih =>
    unfold removeKey
    simp only [keysOf, List.map_cons, List.nodup_cons] at hnd
    by_cases hq : q.1 = k
    · rw [if_pos hq, lookupKey_eq_none_iff]
      exact hq ▸ hnd.1
    · rw [if_neg hq, lookupKey_cons, if_neg hq]
      exact ih hnd.2

theorem lookupKey_removeKey_ne {α : Type} (m : List (String × α)) (k k' : String)
    (h : k' ≠ k) : lookupKey (removeKey m k) k' = lookupKey m k' := by
  induction m with
  | nil => simp [removeKey]
  | cons q rest ih =>
    unfold removeKey
    by_cases hq : q.1 = k
    · rw [if_pos hq, lookupKey_cons, if_neg (by rw [hq]; exact fun hh => h hh.symm)]
    · rw [if_neg hq, lookupKey_cons, lookupKey_cons]
      split <;> simp [ih]

/-! ### Statistics accumulation lemmas -/

/-- Sum of the values of a counts dict. -/
def sumValues (m : List (String × Nat)) : Nat := (m.map Prod.snd).sum

/-- Occurrence count of a string in a list. -/
def countStr : List String → String → Nat
  | [], _ => 0
  | a :: l, k => (if a = k then 1 else 0) + countStr l k

theorem lookupKey_bump (m : List (String × Nat)) (k k' : String) :
    lookupKey (bump m k') k =
      if k = k' then some ((lookupKey m k).getD 0 + 1) else lookupKey m k := by
  unfold bump
  by_cases h : k = k'
  · subst h
    rw [if_pos rfl, lookupKey_dictInsert_self]
  · rw [if_neg h, lookupKey_dictInsert_ne m k' k _ h]

theorem keysOf_bump (m : List (String × Nat)) (k : String) :
    keysOf (bump m k) = if k ∈ keysOf m then keysOf m else keysOf m ++ [k] := by
  unfold bump
  exact keysOf_dictInsert m k _

theorem mem_keysOf_bump (m : List (String × Nat)) (k k' : String) :
    k ∈ keysOf (bump m k') ↔ k ∈ keysOf m ∨ k = k' := by
  rw [keysOf_bump]
  split
  · constructor
    · exact fun h => Or.inl h
    · rintro (h | h)
      · exact h
      · subst h; assumption
  · simp

theorem nodup_keysOf_bump (m : List (String × Nat)) (k : String)
    (h : (keysOf m).Nodup) : (keysOf (bump m k)).Nodup := by
  unfold bump
  exact nodup_keysOf_dictInsert m k _ h

theorem overwrite_eq_self {α : Type} (m : List (String × α)) (k : String) (v : α)
    (h : k ∉ keysOf m) : (m.map fun p => if p.1 = k then (k, v) else p) = m := by
  induction m with
  | nil => simp
  | cons p rest ih =>
    unfold keysOf at h
    simp only [List.map_cons, List.mem_cons] at h
    push_neg at h
    have hp : ¬ p.1 = k := fun hh => h.1 hh.symm
    simp only [List.map_cons, hp, if_false]
    rw [ih (by unfold keysOf; exact h.2)]

theorem dictInsert_cons_ne {α : Type} (a : String) (b : α) (m : List (String × α))
    (k : String) (v : α) (h : ¬ a = k) :
    dictInsert ((a, b) :: m) k v = (a, b) :: dictInsert m k v := by
  unfold dictInsert
  simp only [lookupKey_cons, h, if_false]
  split
  · simp [h]
  · simp

theorem bump_cons_ne (a : String) (b : Nat) (m : List (String × Nat)) (k : String)
    (h : ¬ a = k) : bump ((a, b) :: m) k = (a, b) :: bump m k := by
  unfold bump
  have hl : lookupKey ((a, b) :: m) k = lookupKey m k := by simp [h]
  rw [hl, dictInsert_cons_ne a b m k _ h]

theorem bump_cons_self (b : Nat) (m : List (String × Nat)) (k : String)
    (h : k ∉ keysOf m) : bump ((k, b) :: m) k = (k, b + 1) :: m := by
  unfold bump dictInsert
  simp only [lookupKey_cons, if_pos rfl, Option.isSome_some, if_true, Option.getD_some,
    List.map_cons]
  rw [overwrite_eq_self m k _ h]

theorem sumValues_bump (m : List (String × Nat)) (k : String)
    (h : (keysOf m).Nodup) : sumValues (bump m k) = sumValues m + 1 := by
  induction m with
  | nil =>
    unfold bump dictInsert
    simp [sumValues]
  | cons p rest ih =>
    rcases p with ⟨a, b⟩
    unfold keysOf at h
    simp only [List.map_cons, List.nodup_cons] at h
    by_cases hak : a = k
    · subst hak
      rw [bump_cons_self b rest a h.1]
      simp [sumValues]
      omega
    · rw [bump_cons_ne a b rest k hak]
      simp only [sumValues, List.map_cons, List.sum_cons] at *
      rw [ih h.2]
      omega

theorem lookupKey_foldl_bump (l : List String) (m : List (String × Nat)) (k : String) :
    lookupKey (l.foldl bump m) k =
      match lookupKey m k with
      | some v => some (v + countStr l k)
      | none => if k ∈ l then some (countStr l k) else none := by
  induction l generalizing m with
  | nil =>
    cases hl : lookupKey m k <;> simp [countStr, hl]
  | cons a l ih =>
    rw [List.foldl_cons, ih, lookupKey_bump]
    by_cases hka : k = a
    · subst hka
      rw [if_pos rfl]
      cases hl : lookupKey m k with
      | some v => simp [countStr, Nat.add_assoc]
      | none => simp [countStr]
    · rw [if_neg hka]
      have hak : ¬ a = k := fun hh => hka hh.symm
      cases hl : lookupKey m k with
      | some v => simp [hl, countStr, hak]
      | none => simp [hl, countStr, hak, List.mem_cons, hka]

theorem mem_keysOf_foldl_bump (l : List String) (m : List (String × Nat)) (k : String) :
    k ∈ keysOf (l.foldl bump m) ↔ k ∈ keysOf m ∨ k ∈ l := by
  induction l generalizing m with
  | nil => simp
  | cons a l ih =>
    rw [List.foldl_cons, ih, mem_keysOf_bump]
    constructor
    · rintro ((h | h) | h)
      · exact Or.inl h
      · exact Or.inr (h ▸ List.mem_cons_self a l)
      · exact Or.inr (List.mem_cons_of_mem a h)
    · rintro (h | h)
      · exact Or.inl (Or.inl h)
      · rcases List.mem_cons.1 h with h1 | h2
        · exact Or.inl (Or.inr h1)
        · exact Or.inr h2

theorem nodup_keysOf_foldl_bump (l : List String) (m : List (String × Nat))
    (h : (keysOf m).Nodup) : (keysOf (l.foldl bump m)).Nodup := by
  induction l generalizing m with
  | nil => exact h
  | cons a l ih => exact ih _ (nodup_keysOf_bump m a h)

theorem sumValues_foldl_bump (l : List String) (m : List (String × Nat))
    (h : (keysOf m).Nodup) : sumValues (l.foldl bump m) = sumValues m + l.length := by
  induction l generalizing m with
  | nil => simp
  | cons a l ih =>
    rw [List.foldl_cons, ih _ (nodup_keysOf_bump m a h), sumValues_bump m a h]
    simp
    omega

theorem stats_foldl_split (ts : List (String × Task))
    (i1 i2 : List (String × Nat)) :
    ts.foldl (fun m p => (bump m.1 p.2.status, bump m.2 p.2.priority)) (i1, i2) =
      ((ts.map (fun p => p.2.status)).foldl bump i1,
       (ts.map (fun p => p.2.priority)).foldl bump i2) := by
  induction ts generalizing i1 i2 with
  | nil => rfl
  | cons p ts ih => simp [List.foldl_cons, ih]

/-! ### Injectivity of the decimal id rendering -/

theorem ofDigitsLE_natDigitsLEAux (fuel : Nat) :
    ∀ n : Nat, n ≤ fuel → ofDigitsLE (natDigitsLEAux fuel n) = n := by
  induction fuel with
  | zero =>
    intro n h
    have hn : n = 0 := Nat.le_zero.1 h
    subst hn
    simp [natDigitsLEAux, ofDigitsLE]
  | succ fuel ih =>
    intro n h
    match n with
    | 0 => simp [natDigitsLEAux, ofDigitsLE]
    | m + 1 =>
      rw [natDigitsLEAux, ofDigitsLE]
      have hdiv : (m + 1) / 10 < m + 1 := Nat.div_lt_self (Nat.succ_pos m) (by omega)
      rw [ih ((m + 1) / 10) (by omega)]
      omega

theorem ofDigitsLE_natDigitsLE (n : Nat) : ofDigitsLE (natDigitsLE n) = n :=
  ofDigitsLE_natDigitsLEAux n n (Nat.le_refl n)

theorem natDigitsLE_inj (n m : Nat) (h : natDigitsLE n = natDigitsLE m) : n = m := by
  have h2 := congrArg ofDigitsLE h
  rwa [ofDigitsLE_natDigitsLE, ofDigitsLE_natDigitsLE] at h2

theorem natDigitsLEAux_lt_ten (fuel : Nat) :
    ∀ n : Nat, ∀ d ∈ natDigitsLEAux fuel n, d < 10 := by
  induction fuel with
  | zero =>
    intro n d hd
    match n with
    | 0 => simp [natDigitsLEAux] at hd
    | m + 1 => simp [natDigitsLEAux] at hd
  | succ fuel ih =>
    intro n d hd
    match n with
    | 0 => simp [natDigitsLEAux] at hd
    | m + 1 =>
      rw [natDigitsLEAux] at hd
      rcases List.mem_cons.1 hd with h1 | h2
      · omega
      · exact ih ((m + 1) / 10) d h2

theorem natDigitsLE_lt_ten (n : Nat) : ∀ d ∈ natDigitsLE n, d < 10 :=
  natDigitsLEAux_lt_ten n n

theorem digitChar_inj (d e : Nat) (hd : d < 10) (he : e < 10)
    (h : digitChar d = digitChar e) : d = e := by
  have hfin : ∀ i j : Fin 10, digitChar i.val = digitChar j.val → i = j := by decide
  exact congrArg Fin.val (hfin ⟨d, hd⟩ ⟨e, he⟩ h)

theorem map_digitChar_inj (ds : List Nat) (es : List Nat)
    (hds : ∀ d ∈ ds, d < 10) (hes : ∀ e ∈ es, e < 10)
    (h : ds.map digitChar = es.map digitChar) : ds = es := by
  induction ds generalizing es with
  | nil =>
    cases es with
    | nil => rfl
    | cons e es => simp at h
  | cons d ds ih =>
    cases es with
    | nil => simp at h
    | cons e es =>
      simp only [List.map_cons, List.cons.injEq] at h
      have h1 : d = e :=
        digitChar_inj d e (hds d (List.mem_cons_self d ds)) (hes e (List.mem_cons_self e es)) h.1
      have h2 : ds = es :=
        ih es (fun x hx => hds x (List.mem_cons_of_mem d hx))
          (fun x hx => hes x (List.mem_cons_of_mem e hx)) h.2
      rw [h1, h2]

theorem natToDecimal_data_inj (n m : Nat)
    (h : (natToDecimal n).data = (natToDecimal m).data) : n = m := by
  unfold natToDecimal at h
  by_cases hn : n = 0 <;> by_cases hm : m = 0
  · rw [hn, hm]
  · exfalso
    rw [if_pos hn, if_neg hm] at h
    have h2 : (natDigitsLE m).map digitChar = ['0'] := by
      have h3 := congrArg List.reverse h
      simp only [List.reverse_reverse] at h3
      rw [← h3]
      rfl
    have h4 : natDigitsLE m = [0] :=
      map_digitChar_inj (natDigitsLE m) [0] (natDigitsLE_lt_ten m) (by simp) h2
    have h5 := congrArg ofDigitsLE h4
    rw [ofDigitsLE_natDigitsLE] at h5
    simp [ofDigitsLE] at h5
    exact hm h5
  · exfalso
    rw [if_neg hn, if_pos hm] at h
    have h2 : (natDigitsLE n).map digitChar = ['0'] := by
      have h3 := congrArg List.reverse h
      simp only [List.reverse_reverse] at h3
      rw [h3]
      rfl
    have h4 : natDigitsLE n = [0] :=
      map_digitChar_inj (natDigitsLE n) [0] (natDigitsLE_lt_ten n) (by simp) h2
    have h5 := congrArg ofDigitsLE h4
    rw [ofDigitsLE_natDigitsLE] at h5
    simp [ofDigitsLE] at h5
    exact hn h5
  · rw [if_neg hn, if_neg hm] at h
    have h2 := congrArg List.reverse h
    simp only [List.reverse_reverse] at h2
    exact natDigitsLE_inj n m
      (map_digitChar_inj _ _ (natDigitsLE_lt_ten n) (natDigitsLE_lt_ten m) h2)

theorem mkTaskId_inj (n m : Nat) (h : mkTaskId n = mkTaskId m) : n = m := by
  unfold mkTaskId at h
  have happ : ∀ (s t : String), (s ++ t).data = s.data ++ t.data := by
    intro s t
    cases s
    cases t
    rfl
  have hd := congrArg String.data h
  rw [happ, happ] at hd
  exact natToDecimal_data_inj n m (List.append_cancel_left hd)

theorem mkTaskId_injective : Function.Injective mkTaskId :=
  fun n m h => mkTaskId_inj n m h

/-! ### Operation traces -/

/-- One host-invoked operation together with its arguments; `now` is the
timestamp the clock would supply during that call. -/
inductive Op where
  | create (title description priority now : String)
  | listOp (status priority : String)
  | update (task_id status now : String)
  | deleteOp (task_id : String)
  | statsOp
deriving DecidableEq

/-- The state transition of one operation (listing and stats never change the
state). -/
def step (s : Store) (op : Op) : Store :=
  match op with
  | .create t d p now => (create_task s t d p now).2
  | .listOp _ _ => s
  | .update id st now => (update_task_status s id st now).2
  | .deleteOp id => (delete_task s id).2
  | .statsOp => s

/-- Running a trace of operations from the initial store. -/
def exec (ops : List Op) : Store := ops.foldl step initStore

/-- The ids assigned by the create calls of a trace, in call order. -/
def createdIds (s : Store) : List Op → List String
  | [] => []
  | op :: rest =>
    match op with
    | .create t d p now => (create_task s t d p now).1.task.id :: createdIds (step s op) rest
    | _ => createdIds (step s op) rest

/-- The number of create calls in a trace. -/
def numCreates : List Op → Nat
  | [] => 0
  | .create _ _ _ _ :: rest => numCreates rest + 1
  | _ :: rest => numCreates rest

theorem update_task_status_counter (s : Store) (task_id status now : String) :
    (update_task_status s task_id status now).2.task_counter = s.task_counter := by
  unfold update_task_status
  cases hl : lookupKey s.tasks task_id with
  | none => rfl
  | some t =>
    by_cases hv : status ∉ valid_statuses
    · simp [hv]
    · simp [hv]

theorem delete_task_counter (s : Store) (task_id : String) :
    (delete_task s task_id).2.task_counter = s.task_counter := by
  unfold delete_task
  cases hl : lookupKey s.tasks task_id with
  | none => rfl
  | some t => rfl

theorem step_counter (s : Store) (op : Op) :
    (step s op).task_counter =
      match op with
      | .create _ _ _ _ => s.task_counter + 1
      | _ => s.task_counter := by
  cases op with
  | create t d p now => rfl
  | listOp st pr => rfl
  | update id st now => exact update_task_status_counter s id st now
  | deleteOp id => exact delete_task_counter s id
  | statsOp => rfl

theorem foldl_step_counter (ops : List Op) :
    ∀ s : Store, (ops.foldl step s).task_counter = s.task_counter + numCreates ops := by
  induction ops with
  | nil => intro s; simp [numCreates]
  | cons op rest ih =>
    intro s
    rw [List.foldl_cons, ih]
    have hc := step_counter s op
    cases op <;> simp_all [numCreates]
    all_goals omega

theorem createdIds_eq_range (ops : List Op) :
    ∀ s : Store,
      createdIds s ops =
        (List.range (numCreates ops)).map (fun i => mkTaskId (s.task_counter + i + 1)) := by
  induction ops with
  | nil => intro s; simp [createdIds, numCreates]
  | cons op rest ih =>
    intro s
    cases op with
    | create t d p now =>
      show mkTaskId (s.task_counter + 1) :: createdIds (step s (.create t d p now)) rest = _
      rw [ih]
      have hc : (step s (.create t d p now)).task_counter = s.task_counter + 1 := rfl
      rw [hc]
      show _ = (List.range (numCreates rest + 1)).map (fun i => mkTaskId (s.task_counter + i + 1))
      rw [List.range_succ_eq_map, List.map_cons, List.map_map]
      refine congrArg₂ List.cons (by simp) ?_
      refine List.map_congr_left fun i _ => ?_
      simp only [Function.comp_apply]
      congr 1
      omega
    | listOp st pr =>
      show createdIds (step s (.listOp st pr)) rest = _
      rw [ih]
      rfl
    | update id st now =>
      show createdIds (step s (.update id st now)) rest = _
      rw [ih]
      rw [show (step s (.update id st now)).task_counter = s.task_counter from
        update_task_status_counter s id st now]
      rfl
    | deleteOp id =>
      show createdIds (step s (.deleteOp id)) rest = _
      rw [ih]
      rw [show (step s (.deleteOp id)).task_counter = s.task_counter from delete_task_counter s id]
      rfl
    | statsOp =>
      show createdIds (step s (.statsOp)) rest = _
      rw [ih]
      rfl

/-! ### Characterisation lemmas for update and delete -/

theorem update_task_status_not_found (s : Store) (task_id status now : String)
    (h : lookupKey s.tasks task_id = none) :
    update_task_status s task_id status now =
      ({ success := false, error := some ("Task " ++ task_id ++ " not found"),
         message := none, task := none }, s) := by
  unfold update_task_status
  rw [h]

theorem update_task_status_invalid (s : Store) (task_id status now : String) (t : Task)
    (hl : lookupKey s.tasks task_id = some t) (hv : status ∉ valid_statuses) :
    update_task_status s task_id status now =
      ({ success := false,
         error := some "Invalid status. Must be one of: pending, in_progress, completed",
         message := none, task := none }, s) := by
  unfold update_task_status
  rw [hl, if_pos hv]

theorem update_task_status_ok_tasks (s : Store) (task_id status now : String) (t : Task)
    (hl : lookupKey s.tasks task_id = some t) (hv : status ∈ valid_statuses) :
    (update_task_status s task_id status now).2.tasks =
      (if status = "completed" then
        storeUpdate (storeUpdate s.tasks task_id (fun u => { u with status := status }))
          task_id (fun u => { u with completed_at := some now })
      else storeUpdate s.tasks task_id (fun u => { u with status := status })) := by
  unfold update_task_status
  rw [hl, if_neg (not_not_intro hv)]

theorem update_task_status_ok_counter (s : Store) (task_id status now : String) (t : Task)
    (hl : lookupKey s.tasks task_id = some t) (hv : status ∈ valid_statuses) :
    (update_task_status s task_id status now).2.task_counter = s.task_counter := by
  unfold update_task_status
  rw [hl, if_neg (not_not_intro hv)]

theorem update_task_status_ok_success (s : Store) (task_id status now : String) (t : Task)
    (hl : lookupKey s.tasks task_id = some t) (hv : status ∈ valid_statuses) :
    (update_task_status s task_id status now).1.success = true := by
  unfold update_task_status
  rw [hl, if_neg (not_not_intro hv)]

theorem delete_task_not_found (s : Store) (task_id : String)
    (h : lookupKey s.tasks task_id = none) :
    delete_task s task_id =
      ({ success := false, error := some ("Task " ++ task_id ++ " not found"),
         message := none, deleted_task := none }, s) := by
  unfold delete_task
  rw [h]

theorem delete_task_found (s : Store) (task_id : String) (t : Task)
    (hl : lookupKey s.tasks task_id = some t) :
    delete_task s task_id =
      ({ success := true, error := none,
         message := some ("Task " ++ task_id ++ " deleted successfully"),
         deleted_task := some t },
       { s with tasks := removeKey s.tasks task_id }) := by
  unfold delete_task
  rw [hl]

/-! ### Ghost instrumentation for the completed-at invariant -/

/-- Ghost flag per id, modelled from the claim's phrase "the task's status has
been set to `completed` at least once since creation": the flag becomes true
exactly when a successful `update_task_status` call sets the status to
`"completed"`, and resets to false when a create call assigns the id. -/
def ghostStep (s : Store) (g : String → Bool) (op : Op) : String → Bool :=
  match op with
  | .create t d p now =>
      fun k => if k = (create_task s t d p now).1.task.id then false else g k
  | .update task_id status now =>
      if (update_task_status s task_id status now).1.success = true ∧ status = "completed" then
        fun k => if k = task_id then true else g k
      else g
  | _ => g

/-- Running a trace from the initial state while tracking the ghost flags. -/
def ghostExec (ops : List Op) : Store × (String → Bool) :=
  ops.foldl (fun sg op => (step sg.1 op, ghostStep sg.1 sg.2 op)) (initStore, fun _ => false)

theorem ghostExec_fst_aux (ops : List Op) :
    ∀ (s : Store) (g : String → Bool),
      (ops.foldl (fun sg op => (step sg.1 op, ghostStep sg.1 sg.2 op)) (s, g)).1 =
        ops.foldl step s := by
  induction ops with
  | nil => intro s g; rfl
  | cons op rest ih =>
    intro s g
    rw [List.foldl_cons, List.foldl_cons]
    exact ih (step s op) (ghostStep s g op)

theorem ghostExec_fst (ops : List Op) : (ghostExec ops).1 = exec ops :=
  ghostExec_fst_aux ops initStore (fun _ => false)

/-- The state invariant of the store together with its ghost flags: keys match
id fields, statuses are in the enumeration, and `completed_at` is non-absent
exactly when the ghost flag is set. -/
def StoreInv (s : Store) (g : String → Bool) : Prop :=
  ∀ p ∈ s.tasks, p.1 = p.2.id ∧ p.2.status ∈ valid_statuses ∧
    p.2.completed_at.isSome = g p.1

theorem storeInv_init : StoreInv initStore (fun _ => false) := by
  intro p hp
  simp [initStore] at hp

theorem storeInv_step (s : Store) (g : String → Bool) (op : Op) (h : StoreInv s g) :
    StoreInv (step s op) (ghostStep s g op) := by
  cases op with
  | listOp st pr => exact h
  | statsOp => exact h
  | deleteOp id =>
    intro q hq
    simp only [step] at hq
    cases hl : lookupKey s.tasks id with
    | none =>
      rw [delete_task_not_found s id hl] at hq
      exact h q hq
    | some t =>
      rw [delete_task_found s id t hl] at hq
      exact h q (mem_removeKey s.tasks id q hq)
  | create t d p now =>
    intro q hq
    simp only [step, create_task] at hq
    rcases mem_dictInsert _ _ _ q hq with h1 | h2
    · subst h1
      refine ⟨rfl, by simp [valid_statuses], ?_⟩
      simp [ghostStep, create_task]
    · obtain ⟨props1, props2, props3⟩ := h q h2.1
      refine ⟨props1, props2, ?_⟩
      show q.2.completed_at.isSome = ghostStep s g (.create t d p now) q.1
      simp only [ghostStep, create_task]
      rw [if_neg h2.2]
      exact props3
  | update id st now =>
    intro q hq
    simp only [step] at hq
    cases hl : lookupKey s.tasks id with
    | none =>
      rw [update_task_status_not_found s id st now hl] at hq
      obtain ⟨props1, props2, props3⟩ := h q hq
      refine ⟨props1, props2, ?_⟩
      have hg : ghostStep s g (.update id st now) = g := by
        simp only [ghostStep]
        rw [update_task_status_not_found s id st now hl]
        simp
      rw [hg]
      exact props3
    | some t =>
      by_cases hv : st ∈ valid_statuses
      · rw [update_task_status_ok_tasks s id st now t hl hv] at hq
        have hsucc := update_task_status_ok_success s id st now t hl hv
        by_cases hc : st = "completed"
        · subst hc
          rw [if_pos rfl] at hq
          have hg : ghostStep s g (.update id "completed" now) =
              fun k => if k = id then true else g k := by
            simp only [ghostStep]
            simp [hsucc]
          rcases mem_storeUpdate _ _ _ q hq with ⟨hq1, hqne⟩ | ⟨r, hr, hrk, hq2⟩
          · rcases mem_storeUpdate _ _ _ q hq1 with ⟨hq3, _⟩ | ⟨r, hr, hrk, hq4⟩
            · obtain ⟨props1, props2, props3⟩ := h q hq3
              refine ⟨props1, props2, ?_⟩
              rw [hg]
              show q.2.completed_at.isSome = if q.1 = id then true else g q.1
              rw [if_neg hqne]
              exact props3
            · exact absurd (by rw [hq4]) hqne
          · rcases mem_storeUpdate _ _ _ r hr with ⟨hr1, hrne⟩ | ⟨u, hu, huk, hr2⟩
            · exact absurd hrk hrne
            · obtain ⟨props1, props2, props3⟩ := h u hu
              subst hq2
              subst hr2
              refine ⟨?_, ?_, ?_⟩
              · show id = u.2.id
                rw [← huk]
                exact props1
              · show "completed" ∈ valid_statuses
                simp [valid_statuses]
              · rw [hg]
                show (some now).isSome = if id = id then true else g id
                simp
        · rw [if_neg hc] at hq
          have hg : ghostStep s g (.update id st now) = g := by
            simp only [ghostStep]
            rw [if_neg (fun hh => hc hh.2)]
          rcases mem_storeUpdate _ _ _ q hq with ⟨hq1, hqne⟩ | ⟨r, hr, hrk, hq2⟩
          · obtain ⟨props1, props2, props3⟩ := h q hq1
            refine ⟨props1, props2, ?_⟩
            rw [hg]
            exact props3
          · obtain ⟨props1, props2, props3⟩ := h r hr
            subst hq2
            refine ⟨?_, ?_, ?_⟩
            · show id = r.2.id
              rw [← hrk]
              exact props1
            · show st ∈ valid_statuses
              exact hv
            · rw [hg]
              show r.2.completed_at.isSome = g id
              rw [← hrk]
              exact props3
      · rw [update_task_status_invalid s id st now t hl hv] at hq
        obtain ⟨props1, props2, props3⟩ := h q hq
        refine ⟨props1, props2, ?_⟩
        have hg : ghostStep s g (.update id st now) = g := by
          simp only [ghostStep]
          rw [update_task_status_invalid s id st now t hl hv]
          simp
        rw [hg]
        exact props3

theorem storeInv_foldl (ops : List Op) :
    ∀ (s : Store) (g : String → Bool), StoreInv s g →
      StoreInv (ops.foldl step s)
        ((ops.foldl (fun sg op => (step sg.1 op, ghostStep sg.1 sg.2 op)) (s, g)).2) := by
  induction ops with
  | nil => intro s g h; exact h
  | cons op rest ih =>
    intro s g h
    rw [List.foldl_cons, List.foldl_cons]
    exact ih (step s op) (ghostStep s g op) (storeInv_step s g op h)

/-! ### Sample data used by the witnesses -/

/-- A concrete completed task. -/
def sampleCompleted : Task :=
  { id := "task_1", title := "A", description := "B", priority := "high",
    status := "completed", created_at := "2026-01-01T00:00:00",
    completed_at := some "2026-01-02T00:00:00" }

/-- A concrete pending task. -/
def samplePending : Task :=
  { id := "task_2", title := "C", description := "D", priority := "medium",
    status := "pending", created_at := "2026-01-03T00:00:00", completed_at := none }

/-- A concrete store holding the two sample tasks. -/
def sampleStore : Store :=
  { tasks := [("task_1", sampleCompleted), ("task_2", samplePending)], task_counter := 2 }

/-! ### The claims -/

/-- C7: `create_task` always succeeds: it increments the counter, returns a
record with id `task_<counter>`, the inputs stored verbatim, status
`"pending"`, `created_at` the current instant and `completed_at` absent, and
inserts exactly that record into the mapping, leaving every other key
untouched. -/
theorem claim_C7_create (s : Store) (title description priority now : String) :
    (create_task s title description priority now).1.success = true
    ∧ (create_task s title description priority now).1.message = "Task created successfully"
    ∧ (create_task s title description priority now).1.task =
        { id := mkTaskId (s.task_counter + 1), title := title, description := description,
          priority := priority, status := "pending", created_at := now, completed_at := none }
    ∧ (create_task s title description priority now).2.task_counter = s.task_counter + 1
    ∧ lookupKey (create_task s title description priority now).2.tasks
        (mkTaskId (s.task_counter + 1)) =
        some (create_task s title description priority now).1.task
    ∧ (∀ k, k ≠ mkTaskId (s.task_counter + 1) →
        lookupKey (create_task s title description priority now).2.tasks k =
          lookupKey s.tasks k) := by
  refine ⟨rfl, rfl, rfl, rfl, ?_, ?_⟩
  · exact lookupKey_dictInsert_self s.tasks (mkTaskId (s.task_counter + 1)) _
  · intro k hk
    exact lookupKey_dictInsert_ne s.tasks (mkTaskId (s.task_counter + 1)) k _ hk

/-- Witness for C7 at a concrete store. -/
theorem claim_C7_witness :
    lookupKey (create_task sampleStore "t" "d" "high" "T").2.tasks "task_3" =
      some { id := "task_3", title := "t", description := "d", priority := "high",
             status := "pending", created_at := "T", completed_at := none } := by
  have h := claim_C7_create sampleStore "t" "d" "high" "T"
  exact h.2.2.2.2.1.trans (by decide)

/-- C1: a successful `update_task_status` call sets the task's `completed_at`
to the current instant when the new status is `"completed"`, leaves
`completed_at` exactly at its prior value when the new status is `"pending"`
or `"in_progress"` (a stale value is never cleared), keeps every other field
of the task unchanged, and leaves every other stored task and the counter
unchanged. -/
theorem claim_C1_update_status_frame (s : Store) (task_id status now : String) (t : Task)
    (hl : lookupKey s.tasks task_id = some t) (hv : status ∈ valid_statuses) :
    (update_task_status s task_id status now).1.success = true
    ∧ lookupKey (update_task_status s task_id status now).2.tasks task_id =
        some { t with
               status := status,
               completed_at := if status = "completed" then some now else t.completed_at }
    ∧ (∀ k, k ≠ task_id →
        lookupKey (update_task_status s task_id status now).2.tasks k = lookupKey s.tasks k)
    ∧ (∀ p ∈ s.tasks, p.1 ≠ task_id →
        p ∈ (update_task_status s task_id status now).2.tasks)
    ∧ (update_task_status s task_id status now).2.task_counter = s.task_counter := by
  refine ⟨update_task_status_ok_success s task_id status now t hl hv, ?_, ?_, ?_,
    update_task_status_ok_counter s task_id status now t hl hv⟩
  · rw [update_task_status_ok_tasks s task_id status now t hl hv]
    by_cases hc : status = "completed"
    · rw [if_pos hc, if_pos hc, lookupKey_storeUpdate_self, lookupKey_storeUpdate_self, hl]
      rfl
    · rw [if_neg hc, if_neg hc, lookupKey_storeUpdate_self, hl]
      rfl
  · intro k hk
    rw [update_task_status_ok_tasks s task_id status now t hl hv]
    by_cases hc : status = "completed"
    · rw [if_pos hc, lookupKey_storeUpdate_ne _ _ _ _ hk, lookupKey_storeUpdate_ne _ _ _ _ hk]
    · rw [if_neg hc, lookupKey_storeUpdate_ne _ _ _ _ hk]
  · intro p hp hpk
    rw [update_task_status_ok_tasks s task_id status now t hl hv]
    by_cases hc : status = "completed"
    · rw [if_pos hc]
      exact mem_storeUpdate_of_ne _ _ _ p (mem_storeUpdate_of_ne _ _ _ p hp hpk) hpk
    · rw [if_neg hc]
      exact mem_storeUpdate_of_ne _ _ _ p hp hpk

/-- Witness for C1: completing the pending sample task stamps its
`completed_at`. -/
theorem claim_C1_witness :
    lookupKey (update_task_status sampleStore "task_2" "completed" "T").2.tasks "task_2" =
      some { id := "task_2", title := "C", description := "D", priority := "medium",
             status := "completed", created_at := "2026-01-03T00:00:00",
             completed_at := some "T" } := by
  have h := claim_C1_update_status_frame sampleStore "task_2" "completed" "T"
    samplePending (by decide) (by decide)
  exact h.2.1.trans (by decide)

/-- C4: updating an existing task with a status outside the enumeration
returns the InvalidStatus error as a normal value and changes nothing. -/
theorem claim_C4_invalid_status (s : Store) (task_id status now : String) (t : Task)
    (hl : lookupKey s.tasks task_id = some t) (hv : status ∉ valid_statuses) :
    update_task_status s task_id status now =
      ({ success := false,
         error := some "Invalid status. Must be one of: pending, in_progress, completed",
         message := none, task := none }, s) :=
  update_task_status_invalid s task_id status now t hl hv

/-- Witness for C4 at a concrete store. -/
theorem claim_C4_witness :
    update_task_status sampleStore "task_1" "done" "T" =
      ({ success := false,
         error := some "Invalid status. Must be one of: pending, in_progress, completed",
         message := none, task := none }, sampleStore) :=
  claim_C4_invalid_status sampleStore "task_1" "done" "T" sampleCompleted
    (by decide) (by decide)

/-- C10: when the task id is absent and the status is also invalid, the
existence check wins: the call returns the NotFound error, not the
InvalidStatus error, and the store is unchanged. -/
theorem claim_C10_not_found_precedence (s : Store) (task_id status now : String)
    (habs : lookupKey s.tasks task_id = none) (_hv : status ∉ valid_statuses) :
    update_task_status s task_id status now =
      ({ success := false, error := some ("Task " ++ task_id ++ " not found"),
         message := none, task := none }, s) :=
  update_task_status_not_found s task_id status now habs

/-- Witness for C10 at a concrete store. -/
theorem claim_C10_witness :
    update_task_status sampleStore "task_99" "done" "T" =
      ({ success := false, error := some "Task task_99 not found",
         message := none, task := none }, sampleStore) := by
  rw [claim_C10_not_found_precedence sampleStore "task_99" "done" "T"
    (by decide) (by decide)]
  rfl

/-- C5: deleting an absent id returns the NotFound error and changes nothing;
deleting a present id removes exactly that entry, returns the removed record's
snapshot, and afterwards no `list_tasks` result contains the id (the
key-uniqueness and key-equals-id hypotheses are the store invariants
established by C8). -/
theorem claim_C5_delete (s : Store) (task_id : String) :
    (lookupKey s.tasks task_id = none →
      delete_task s task_id =
        ({ success := false, error := some ("Task " ++ task_id ++ " not found"),
           message := none, deleted_task := none }, s))
    ∧ (∀ t, lookupKey s.tasks task_id = some t →
        (keysOf s.tasks).Nodup →
        (∀ p ∈ s.tasks, p.1 = p.2.id) →
        (delete_task s task_id).1 =
          { success := true, error := none,
            message := some ("Task " ++ task_id ++ " deleted successfully"),
            deleted_task := some t }
        ∧ (delete_task s task_id).2.tasks.length + 1 = s.tasks.length
        ∧ (delete_task s task_id).2.task_counter = s.task_counter
        ∧ lookupKey (delete_task s task_id).2.tasks task_id = none
        ∧ (∀ k, k ≠ task_id →
            lookupKey (delete_task s task_id).2.tasks k = lookupKey s.tasks k)
        ∧ (∀ st pr, ∀ u ∈ (list_tasks (delete_task s task_id).2 st pr).tasks,
            u.id ≠ task_id)) := by
  constructor
  · intro h
    exact delete_task_not_found s task_id h
  · intro t ht hnd hmatch
    rw [delete_task_found s task_id t ht]
    refine ⟨rfl, ?_, rfl, ?_, ?_, ?_⟩
    · exact length_removeKey s.tasks task_id (by simp [ht])
    · exact lookupKey_removeKey_self s.tasks task_id hnd
    · intro k hk
      exact lookupKey_removeKey_ne s.tasks task_id k hk
    · intro st pr u hu
      simp only [list_tasks] at hu
      rcases List.mem_filter.1 hu with ⟨hu1, _⟩
      rcases List.mem_map.1 hu1 with ⟨p, hp, hpu⟩
      intro hid
      have hkey : p.1 = task_id := by
        rw [hmatch p (mem_removeKey s.tasks task_id p hp), hpu, hid]
      have hnone := lookupKey_removeKey_self s.tasks task_id hnd
      rw [lookupKey_eq_none_iff] at hnone
      refine hnone ?_
      have hmem : p.1 ∈ keysOf (removeKey s.tasks task_id) :=
        List.mem_map_of_mem Prod.fst hp
      rwa [hkey] at hmem

/-- Witness for C5: deleting the first sample task shrinks the store by one. -/
theorem claim_C5_witness :
    (delete_task sampleStore "task_1").2.tasks.length + 1 = sampleStore.tasks.length := by
  have h := (claim_C5_delete sampleStore "task_1").2 sampleCompleted
    (by decide) (by decide) (by decide)
  exact h.2.1

/-- The loop of `list_tasks` keeps exactly the tasks matching both filters. -/
theorem keepTask_eq (status priority : String) (t : Task) :
    keepTask status priority t =
      decide ((status = "all" ∨ t.status = status)
        ∧ (priority = "all" ∨ t.priority = priority)) := by
  unfold keepTask
  by_cases h1 : status = "all" <;> by_cases h2 : t.status = status <;>
    by_cases h3 : priority = "all" <;> by_cases h4 : t.priority = priority <;>
      simp [h1, h2, h3, h4]

/-- C3: `list_tasks` returns exactly the stored tasks passing both filters
(`"all"` disabling a filter), in insertion order, with the count equal to the
filtered length and both filters echoed; filters matching nothing yield an
empty result with count 0 rather than an error. -/
theorem claim_C3_list_tasks (s : Store) (status priority : String) :
    (list_tasks s status priority).tasks =
      (s.tasks.map Prod.snd).filter
        (fun t => decide ((status = "all" ∨ t.status = status)
          ∧ (priority = "all" ∨ t.priority = priority)))
    ∧ (list_tasks s status priority).total = (list_tasks s status priority).tasks.length
    ∧ (list_tasks s status priority).filters_status = status
    ∧ (list_tasks s status priority).filters_priority = priority
    ∧ ((∀ t ∈ s.tasks.map Prod.snd,
          ¬((status = "all" ∨ t.status = status)
            ∧ (priority = "all" ∨ t.priority = priority))) →
        (list_tasks s status priority).tasks = []
        ∧ (list_tasks s status priority).total = 0) := by
  have htasks : (list_tasks s status priority).tasks =
      (s.tasks.map Prod.snd).filter
        (fun t => decide ((status = "all" ∨ t.status = status)
          ∧ (priority = "all" ∨ t.priority = priority))) := by
    simp only [list_tasks]
    exact List.filter_congr fun t _ => keepTask_eq status priority t
  refine ⟨htasks, rfl, rfl, rfl, ?_⟩
  intro hall
  have hnil : (list_tasks s status priority).tasks = [] := by
    rw [htasks]
    rw [List.filter_eq_nil_iff]
    intro t ht
    simpa using hall t ht
  refine ⟨hnil, ?_⟩
  show (list_tasks s status priority).tasks.length = 0
  rw [hnil]
  rfl

/-- Witness for C3: a status filter matching no task yields the empty result. -/
theorem claim_C3_witness :
    (list_tasks sampleStore "blocked" "medium").tasks = []
    ∧ (list_tasks sampleStore "blocked" "medium").total = 0 :=
  (claim_C3_list_tasks sampleStore "blocked" "medium").2.2.2.2 (by decide)

theorem get_task_stats_by_status (s : Store) :
    (get_task_stats s).by_status =
      (s.tasks.map (fun p => p.2.status)).foldl bump
        [("pending", 0), ("in_progress", 0), ("completed", 0)] := by
  simp only [get_task_stats]
  rw [stats_foldl_split]

theorem get_task_stats_by_priority (s : Store) :
    (get_task_stats s).by_priority =
      (s.tasks.map (fun p => p.2.priority)).foldl bump
        [("low", 0), ("medium", 0), ("high", 0)] := by
  simp only [get_task_stats]
  rw [stats_foldl_split]

/-- C2: `get_task_stats` reports a total equal to the store's live size and to
the sum of the `by_status` counts; `by_status` always carries the three
enumerated statuses (zero when absent from the data) with their occurrence
counts; `by_priority` carries exactly the keys `low`, `medium`, `high` plus
every off-enumeration priority actually present, each with its occurrence
count. -/
theorem claim_C2_stats (s : Store) :
    (get_task_stats s).total_tasks = s.tasks.length
    ∧ sumValues (get_task_stats s).by_status = (get_task_stats s).total_tasks
    ∧ (∀ k ∈ (["pending", "in_progress", "completed"] : List String),
        lookupKey (get_task_stats s).by_status k =
          some (countStr (s.tasks.map (fun p => p.2.status)) k))
    ∧ (∀ k, k ∈ keysOf (get_task_stats s).by_priority ↔
        (k ∈ (["low", "medium", "high"] : List String)
          ∨ k ∈ s.tasks.map (fun p => p.2.priority)))
    ∧ (∀ k, k ∈ keysOf (get_task_stats s).by_priority →
        lookupKey (get_task_stats s).by_priority k =
          some (countStr (s.tasks.map (fun p => p.2.priority)) k)) := by
  have hbs := get_task_stats_by_status s
  have hbp := get_task_stats_by_priority s
  refine ⟨rfl, ?_, ?_, ?_, ?_⟩
  · rw [hbs, sumValues_foldl_bump _ _ (by decide)]
    have h0 : sumValues [("pending", 0), ("in_progress", 0), ("completed", 0)] = 0 := rfl
    rw [h0, Nat.zero_add, List.length_map]
    rfl
  · intro k hk
    rw [hbs, lookupKey_foldl_bump]
    simp only [List.mem_cons, List.not_mem_nil, or_false] at hk
    rcases hk with rfl | rfl | rfl <;> simp [lookupKey]
  · intro k
    rw [hbp, mem_keysOf_foldl_bump]
    exact Iff.rfl
  · intro k hk
    rw [hbp] at hk
    rw [hbp, lookupKey_foldl_bump]
    by_cases h1 : k = "low"
    · subst h1; simp [lookupKey]
    by_cases h2 : k = "medium"
    · subst h2; simp [lookupKey]
    by_cases h3 : k = "high"
    · subst h3; simp [lookupKey]
    have hn1 : ¬ "low" = k := fun hh => h1 hh.symm
    have hn2 : ¬ "medium" = k := fun hh => h2 hh.symm
    have hn3 : ¬ "high" = k := fun hh => h3 hh.symm
    have hnone : lookupKey [("low", 0), ("medium", 0), ("high", 0)] k = none := by
      simp [lookupKey, hn1, hn2, hn3]
    rw [mem_keysOf_foldl_bump] at hk
    rcases hk with hinit | hl
    · exfalso
      revert hinit
      simp [keysOf, h1, h2, h3]
    · rw [hnone]
      simp [hl]

/-- Witness for C2: one sample task is completed. -/
theorem claim_C2_witness :
    lookupKey (get_task_stats sampleStore).by_status "completed" = some 1 := by
  have h := (claim_C2_stats sampleStore).2.2.1 "completed" (by decide)
  exact h.trans (by decide)

theorem task_summary_prompt_found (s : Store) (task_id : String) (t : Task)
    (hl : lookupKey s.tasks task_id = some t) :
    task_summary_prompt s task_id =
      "Task Summary:\nTitle: " ++ t.title ++
      "\nDescription: " ++ t.description ++
      "\nPriority: " ++ t.priority ++
      "\nStatus: " ++ t.status ++
      "\nCreated: " ++ t.created_at ++
      "\nCompleted: " ++ orDefaultStr t.completed_at "Not completed" ++
      "\n\nPlease analyze this task and provide recommendations for completion." := by
  unfold task_summary_prompt
  rw [hl]

/-- C9: `task_summary_prompt` always returns text (it is a pure function of
the store in this model, so it never modifies the store): the plain not-found
sentence for an unknown id, otherwise the fixed multi-line block interpolating
the task's fields, rendering the literal phrase "Not completed" when
`completed_at` is absent, followed by the fixed instruction sentence. -/
theorem claim_C9_prompt (s : Store) (task_id : String) :
    (lookupKey s.tasks task_id = none →
      task_summary_prompt s task_id = "Task " ++ task_id ++ " not found")
    ∧ (∀ t, lookupKey s.tasks task_id = some t → t.completed_at = none →
        task_summary_prompt s task_id =
          "Task Summary:\nTitle: " ++ t.title ++
          "\nDescription: " ++ t.description ++
          "\nPriority: " ++ t.priority ++
          "\nStatus: " ++ t.status ++
          "\nCreated: " ++ t.created_at ++
          "\nCompleted: " ++ "Not completed" ++
          "\n\nPlease analyze this task and provide recommendations for completion.")
    ∧ (∀ t c, lookupKey s.tasks task_id = some t → t.completed_at = some c → c ≠ "" →
        task_summary_prompt s task_id =
          "Task Summary:\nTitle: " ++ t.title ++
          "\nDescription: " ++ t.description ++
          "\nPriority: " ++ t.priority ++
          "\nStatus: " ++ t.status ++
          "\nCreated: " ++ t.created_at ++
          "\nCompleted: " ++ c ++
          "\n\nPlease analyze this task and provide recommendations for completion.") := by
  refine ⟨?_, ?_, ?_⟩
  · intro h
    unfold task_summary_prompt
    rw [h]
  · intro t hl hc
    rw [task_summary_prompt_found s task_id t hl, hc]
    rfl
  · intro t c hl hc hcne
    rw [task_summary_prompt_found s task_id t hl, hc]
    simp only [orDefaultStr]
    rw [if_neg hcne]

set_option maxRecDepth 4096 in
/-- Witness for C9: the pending sample task renders "Not completed". -/
theorem claim_C9_witness :
    task_summary_prompt sampleStore "task_2" =
      "Task Summary:\nTitle: C\nDescription: D\nPriority: medium\nStatus: pending\nCreated: 2026-01-03T00:00:00\nCompleted: Not completed\n\nPlease analyze this task and provide recommendations for completion." := by
  have h := (claim_C9_prompt sampleStore "task_2").2.1 samplePending (by decide) (by decide)
  exact h.trans (by decide)

/-- C6: over any trace from a fresh store, the create calls assign exactly the
ids `task_1` … `task_N` in order of creation, never reusing an id, and the
counter ends at the number of creates (it is incremented on every create and
never decremented, deletes included). -/
theorem claim_C6_ids (ops : List Op) :
    createdIds initStore ops =
      (List.range (numCreates ops)).map (fun i => mkTaskId (i + 1))
    ∧ (createdIds initStore ops).Nodup
    ∧ (exec ops).task_counter = numCreates ops := by
  have h := createdIds_eq_range ops initStore
  have heq : (List.range (numCreates ops)).map
        (fun i => mkTaskId (initStore.task_counter + i + 1))
      = (List.range (numCreates ops)).map (fun i => mkTaskId (i + 1)) := by
    refine List.map_congr_left fun i _ => ?_
    show mkTaskId (0 + i + 1) = mkTaskId (i + 1)
    congr 1
    omega
  refine ⟨?_, ?_, ?_⟩
  · rw [h, heq]
  · rw [h, heq]
    refine List.Nodup.map ?_ (List.nodup_range _)
    intro i j hij
    have h2 := mkTaskId_inj (i + 1) (j + 1) hij
    omega
  · show (ops.foldl step initStore).task_counter = numCreates ops
    rw [foldl_step_counter]
    simp [initStore]

/-- C8: in every state reachable from the empty store, each task record's key
equals its id field, its status lies in the enumeration, and `completed_at`
is non-absent exactly when a successful update set the status to
`"completed"` since the task's creation (the ghost flag of `ghostExec`). -/
theorem claim_C8_invariant (ops : List Op) :
    ∀ p ∈ (exec ops).tasks,
      p.1 = p.2.id ∧ p.2.status ∈ valid_statuses ∧
        p.2.completed_at.isSome = (ghostExec ops).2 p.1 := by
  intro p hp
  exact storeInv_foldl ops initStore (fun _ => false) storeInv_init p hp

/-- A one-create trace used by the C8 witness. -/
def sampleOps : List Op := [Op.create "a" "b" "medium" "T0"]

/-- The store entry produced by `sampleOps`. -/
def sampleEntry : String × Task :=
  ("task_1", { id := "task_1", title := "a", description := "b", priority := "medium",
               status := "pending", created_at := "T0", completed_at := none })

/-- Witness for C8 on the one-create trace. -/
theorem claim_C8_witness :
    sampleEntry.1 = sampleEntry.2.id ∧ sampleEntry.2.status ∈ valid_statuses ∧
      sampleEntry.2.completed_at.isSome = (ghostExec sampleOps).2 sampleEntry.1 :=
  claim_C8_invariant sampleOps sampleEntry (by decide)

end TaskManager
